import Mathlib

/-!
Verification development for the workspace-extension-manager repository.

The embedding translates the TypeScript sources:
  * `src/detector.ts`   — marker-file scanning and project-type resolution;
  * `src/profileManager.ts` — extension reconciliation, marketplace advisory,
    install/disable/settings application;
  * the extension entry point (`detectAndApplyProfile`) and its session state.

Modelling conventions:
  * Filesystem paths are component lists (`List String`): `path.join root file`
    appends one component, `path.relative root p` drops the root prefix, and
    `split(path.sep)` is the identity on the component list.
  * The filesystem is a predicate `FsPath → Bool` standing for `fs.existsSync`.
  * Host-editor side effects (notifications, command executions, marketplace
    queries, configuration writes) are reified as an `Event` list the modelled
    functions return, in the order the source issues them.
  * `Array.prototype.sort` with comparator `(a, b) => b.score - a.score` is a
    stable descending sort (stability is guaranteed by ECMAScript 2019); it is
    modelled by a stable descending insertion sort.
-/

inductive ProjectType where
  | node
  | python
  | rust
  | go
  | unknown
deriving DecidableEq

/-- String form of a project type, as stored in workspace state. -/
def typeName : ProjectType → String
  | .node => "node"
  | .python => "python"
  | .rust => "rust"
  | .go => "go"
  | .unknown => "unknown"

/-- Filesystem paths as component lists. -/
abbrev FsPath := List String

structure DetectionRule where
  type : ProjectType
  files : List String
  priority : Nat
deriving DecidableEq

/-- Default excluded folders (`EXCLUDED_FOLDERS` in `detector.ts`). -/
def EXCLUDED_FOLDERS : List String :=
  ["node_modules", ".git", ".vscode", "libraries", "vendor", "build", "dist",
   "out", ".next", ".nuxt", "target", "__pycache__", ".pytest_cache", "venv",
   ".venv", "env", ".env"]

def nodeMarkers : List String :=
  ["package.json", "tsconfig.json", "yarn.lock", "pnpm-lock.yaml"]

def pythonMarkers : List String :=
  ["requirements.txt", "setup.py", "pyproject.toml", "Pipfile", "poetry.lock",
   ".python-version"]

def rustMarkers : List String := ["Cargo.toml", "Cargo.lock"]

def goMarkers : List String := ["go.mod", "go.sum"]

/-- The fixed rule list of `detector.ts`, in source order. -/
def detectionRules : List DetectionRule :=
  [⟨.node, nodeMarkers, 1⟩, ⟨.python, pythonMarkers, 1⟩,
   ⟨.rust, rustMarkers, 1⟩, ⟨.go, goMarkers, 1⟩]

/-- `getExcludedFolders`: the user list replaces the default when non-empty. -/
def getExcludedFolders (userExcluded : List String) : List String :=
  if userExcluded.length > 0 then userExcluded else EXCLUDED_FOLDERS

/-- Root-relative form of a path (`path.relative(rootPath, filePath)`). -/
def pathRelative (root : FsPath) (filePath : FsPath) : FsPath :=
  filePath.drop root.length

/-- `isPathExcluded`: some component of the relative path is an excluded name. -/
def isPathExcluded (filePath : FsPath) (root : FsPath)
    (excludedFolders : List String) : Bool :=
  (pathRelative root filePath).any (fun part => excludedFolders.contains part)

/-- One candidate file of a rule is counted when it is not excluded and exists
(the body of the inner loop of `detectProjectType`). -/
def markerCounted (root : FsPath) (fs : FsPath → Bool)
    (excludedFolders : List String) (file : String) : Bool :=
  !isPathExcluded (root ++ [file]) root excludedFolders && fs (root ++ [file])

/-- Match count of one rule's marker list. -/
def ruleMatchCount (root : FsPath) (fs : FsPath → Bool)
    (excludedFolders : List String) (files : List String) : Nat :=
  files.countP (markerCounted root fs excludedFolders)

structure ScoredType where
  type : ProjectType
  score : Nat
deriving DecidableEq

/-- Stable insertion placing `x` before later elements of equal score, the
behaviour of the stable `sort((a, b) => b.score - a.score)`. -/
def insertDesc (x : ScoredType) : List ScoredType → List ScoredType
  | [] => [x]
  | y :: ys => if y.score ≤ x.score then x :: y :: ys else y :: insertDesc x ys

/-- Stable descending sort by score. -/
def sortDesc : List ScoredType → List ScoredType
  | [] => []
  | x :: xs => insertDesc x (sortDesc xs)

/-- `detectProjectType` from `detector.ts`: count each rule's markers, keep the
rules with positive count scored by `matchCount * priority`, stable-sort by
score descending and return the top type, `unknown` when nothing matched. -/
def detectProjectType (root : FsPath) (fs : FsPath → Bool)
    (userExcluded : List String) : ProjectType :=
  let excludedFolders := getExcludedFolders userExcluded
  let detectedTypes := detectionRules.filterMap (fun rule =>
    let matchCount := ruleMatchCount root fs excludedFolders rule.files
    if matchCount > 0 then some ⟨rule.type, matchCount * rule.priority⟩
    else none)
  match (sortDesc detectedTypes).head? with
  | none => ProjectType.unknown
  | some top => top.type

/-- Resolution step of `detectProjectType` as a function of the four match
counts (node, python, rust, go), in rule order. -/
def resolveCounts (cn cp cr cg : Nat) : ProjectType :=
  let detectedTypes :=
    (if cn > 0 then [ScoredType.mk .node (cn * 1)] else []) ++
    (if cp > 0 then [ScoredType.mk .python (cp * 1)] else []) ++
    (if cr > 0 then [ScoredType.mk .rust (cr * 1)] else []) ++
    (if cg > 0 then [ScoredType.mk .go (cg * 1)] else [])
  match (sortDesc detectedTypes).head? with
  | none => ProjectType.unknown
  | some top => top.type

/-- Reference resolver over the four match counts, written from the spec's
words: each rule's score is its match count times its priority, the rule with
the highest score wins, ties resolve to whichever rule appears first in the
fixed ordering node, python, rust, go, and if every rule scores zero the
result is `unknown`. -/
def refCounts (cn cp cr cg : Nat) : ProjectType :=
  let sn := cn * 1
  let sp := cp * 1
  let sr := cr * 1
  let sg := cg * 1
  let best := max (max sn sp) (max sr sg)
  if best = 0 then ProjectType.unknown
  else if sn = best then ProjectType.node
  else if sp = best then ProjectType.python
  else if sr = best then ProjectType.rust
  else ProjectType.go

/-- Reference project-type resolver following the specification text, using
the same marker scanner for the counts. -/
def referenceResolve (root : FsPath) (fs : FsPath → Bool)
    (userExcluded : List String) : ProjectType :=
  refCounts
    (ruleMatchCount root fs (getExcludedFolders userExcluded) nodeMarkers)
    (ruleMatchCount root fs (getExcludedFolders userExcluded) pythonMarkers)
    (ruleMatchCount root fs (getExcludedFolders userExcluded) rustMarkers)
    (ruleMatchCount root fs (getExcludedFolders userExcluded) goMarkers)

lemma detect_eq_resolveCounts (root : FsPath) (fs : FsPath → Bool)
    (ue : List String) :
    detectProjectType root fs ue = resolveCounts
      (ruleMatchCount root fs (getExcludedFolders ue) nodeMarkers)
      (ruleMatchCount root fs (getExcludedFolders ue) pythonMarkers)
      (ruleMatchCount root fs (getExcludedFolders ue) rustMarkers)
      (ruleMatchCount root fs (getExcludedFolders ue) goMarkers) := by
  by_cases h1 : 0 < ruleMatchCount root fs (getExcludedFolders ue) nodeMarkers <;>
  by_cases h2 : 0 < ruleMatchCount root fs (getExcludedFolders ue) pythonMarkers <;>
  by_cases h3 : 0 < ruleMatchCount root fs (getExcludedFolders ue) rustMarkers <;>
  by_cases h4 : 0 < ruleMatchCount root fs (getExcludedFolders ue) goMarkers <;>
  simp [detectProjectType, resolveCounts, detectionRules, List.filterMap_cons,
    h1, h2, h3, h4]

lemma resolveCounts_eq_refCounts :
    ∀ (a : Fin 5) (b : Fin 7) (c : Fin 3) (d : Fin 3),
      resolveCounts a.val b.val c.val d.val = refCounts a.val b.val c.val d.val := by
  decide

lemma ruleMatchCount_le (root : FsPath) (fs : FsPath → Bool)
    (ex : List String) (files : List String) :
    ruleMatchCount root fs ex files ≤ files.length :=
  List.countP_le_length (markerCounted root fs ex)

/-- C1: for every filesystem state and excluded-folder configuration,
`detectProjectType` equals the reference resolver: score is match count times
priority, the strictly highest score wins, ties resolve to the first rule in
the fixed ordering node, python, rust, go, and all-zero scores give
`unknown`. -/
theorem detect_matches_reference (root : FsPath) (fs : FsPath → Bool)
    (ue : List String) :
    detectProjectType root fs ue = referenceResolve root fs ue := by
  have hb1 : ruleMatchCount root fs (getExcludedFolders ue) nodeMarkers < 5 := by
    have h := ruleMatchCount_le root fs (getExcludedFolders ue) nodeMarkers
    have hlen : nodeMarkers.length = 4 := rfl
    omega
  have hb2 : ruleMatchCount root fs (getExcludedFolders ue) pythonMarkers < 7 := by
    have h := ruleMatchCount_le root fs (getExcludedFolders ue) pythonMarkers
    have hlen : pythonMarkers.length = 6 := rfl
    omega
  have hb3 : ruleMatchCount root fs (getExcludedFolders ue) rustMarkers < 3 := by
    have h := ruleMatchCount_le root fs (getExcludedFolders ue) rustMarkers
    have hlen : rustMarkers.length = 2 := rfl
    omega
  have hb4 : ruleMatchCount root fs (getExcludedFolders ue) goMarkers < 3 := by
    have h := ruleMatchCount_le root fs (getExcludedFolders ue) goMarkers
    have hlen : goMarkers.length = 2 := rfl
    omega
  rw [detect_eq_resolveCounts root fs ue]
  unfold referenceResolve
  exact resolveCounts_eq_refCounts ⟨_, hb1⟩ ⟨_, hb2⟩ ⟨_, hb3⟩ ⟨_, hb4⟩

/-- Variant of `detectProjectType` whose excluded set is exactly the given
list, with no default-list fallback (used to state that with a non-empty
custom configuration the default exclusion list does not apply). -/
def detectProjectTypeNoDefault (root : FsPath) (fs : FsPath → Bool)
    (excludedFolders : List String) : ProjectType :=
  let detectedTypes := detectionRules.filterMap (fun rule =>
    let matchCount := ruleMatchCount root fs excludedFolders rule.files
    if matchCount > 0 then some ⟨rule.type, matchCount * rule.priority⟩
    else none)
  match (sortDesc detectedTypes).head? with
  | none => ProjectType.unknown
  | some top => top.type

/-- C2 counterexample: with the non-empty custom exclusion list
`["custom_vendor"]`, a `package.json` marker present only under the
default-excluded directory name `libraries` (which is not in the custom list)
is NOT counted: detection still yields `unknown`, not `node` as the claim's
example demands, because detection only queries marker files directly at the
workspace root. -/
theorem detect_subdir_marker_counterexample :
    detectProjectType ["ws"]
        (fun p => p == ["ws", "libraries", "package.json"]) ["custom_vendor"]
      = ProjectType.unknown ∧
    "libraries" ∈ EXCLUDED_FOLDERS ∧
    "libraries" ∉ ["custom_vendor"] ∧
    (["custom_vendor"] : List String) ≠ [] ∧
    ProjectType.unknown ≠ ProjectType.node := by
  refine ⟨by decide, by decide, by decide, by decide, by decide⟩

/-- C2 (amended): for every workspace whose excluded-folder configuration is a
non-empty list, the default exclusion list does not apply: the excluded set is
exactly the custom list, and detection coincides with a detector that has no
default list at all. (Detection only consults marker files directly at the
workspace root, so a marker present only under a subdirectory — default
excluded or not — is never counted.) -/
theorem custom_exclusions_replace_default (root : FsPath) (fs : FsPath → Bool)
    (ue : List String) (h : ue ≠ []) :
    getExcludedFolders ue = ue ∧
    detectProjectType root fs ue = detectProjectTypeNoDefault root fs ue := by
  have hlen : ue.length > 0 := List.length_pos.mpr h
  have hex : getExcludedFolders ue = ue := by
    simp [getExcludedFolders, hlen]
  exact ⟨hex, by simp [detectProjectType, detectProjectTypeNoDefault, hex]⟩

/-- C2 witness: the amended statement at a concrete non-empty configuration. -/
theorem custom_exclusions_replace_default_witness :
    getExcludedFolders ["custom_vendor"] = ["custom_vendor"] ∧
    detectProjectType ["ws"] (fun _ => false) ["custom_vendor"]
      = detectProjectTypeNoDefault ["ws"] (fun _ => false) ["custom_vendor"] :=
  custom_exclusions_replace_default ["ws"] (fun _ => false) ["custom_vendor"]
    (by decide)

/-- C10: the exclusion check compares every component of the candidate's
root-relative path, including the final filename component (first conjunct:
for a root-level candidate the check is exactly membership of the filename in
the excluded list); consequently a marker file whose name is in the
excluded-folders configuration is never counted even when it exists directly
at the workspace root (second conjunct), and a workspace whose existing
markers all have excluded names yields `unknown` (third conjunct). -/
theorem excluded_marker_filename_never_counted (root : FsPath)
    (fs : FsPath → Bool) (ue : List String) (file : String)
    (hfile : file ∈ getExcludedFolders ue)
    (hcover : ∀ rule ∈ detectionRules, ∀ f ∈ rule.files,
      fs (root ++ [f]) = true → f ∈ getExcludedFolders ue) :
    isPathExcluded (root ++ [file]) root (getExcludedFolders ue) = true ∧
    markerCounted root fs (getExcludedFolders ue) file = false ∧
    detectProjectType root fs ue = ProjectType.unknown := by
  have hrel : ∀ g : String, pathRelative root (root ++ [g]) = [g] := by
    intro g
    simp [pathRelative]
  have hexcl : ∀ g : String, g ∈ getExcludedFolders ue →
      isPathExcluded (root ++ [g]) root (getExcludedFolders ue) = true := by
    intro g hg
    simp [isPathExcluded, hrel, hg]
  have hcount : ∀ rule ∈ detectionRules,
      ruleMatchCount root fs (getExcludedFolders ue) rule.files = 0 := by
    intro rule hrule
    apply List.countP_eq_zero.mpr
    intro f hf
    simp only [markerCounted, Bool.and_eq_true, Bool.not_eq_true',
      not_and, Bool.not_eq_true]
    intro hnotex
    by_cases hfs : fs (root ++ [f]) = true
    · exact absurd (hexcl f (hcover rule hrule f hf hfs)) (by simp [hnotex])
    · simpa using hfs
  have hmc : markerCounted root fs (getExcludedFolders ue) file = false := by
    simp [markerCounted, hexcl file hfile]
  refine ⟨hexcl file hfile, hmc, ?_⟩
  have hnil : (detectionRules.filterMap (fun rule =>
      let matchCount := ruleMatchCount root fs (getExcludedFolders ue) rule.files
      if matchCount > 0 then
        some (ScoredType.mk rule.type (matchCount * rule.priority))
      else none)) = [] := by
    apply List.filterMap_eq_nil_iff.mpr
    intro rule hrule
    simp [hcount rule hrule]
  simp only [detectProjectType, hnil]
  rfl

/-- C10 witness: with configuration `["package.json"]` and a workspace whose
only marker is `package.json` at the root, detection yields `unknown`. -/
theorem excluded_marker_filename_never_counted_witness :
    isPathExcluded (["ws"] ++ ["package.json"]) ["ws"]
        (getExcludedFolders ["package.json"]) = true ∧
    markerCounted ["ws"] (fun p => p == ["ws", "package.json"])
        (getExcludedFolders ["package.json"]) "package.json" = false ∧
    detectProjectType ["ws"] (fun p => p == ["ws", "package.json"])
        ["package.json"] = ProjectType.unknown :=
  excluded_marker_filename_never_counted ["ws"]
    (fun p => p == ["ws", "package.json"]) ["package.json"] "package.json"
    (by decide) (by decide)

/-- Lowercasing of extension ids (`id.toLowerCase()`). -/
def lowerStr (s : String) : String := String.mk (s.data.map Char.toLower)

/-- `getMissingExtensions` from `profileManager.ts`: profile extension ids
whose lowercase form is not among the lowercased installed ids, in profile
order, original casing. -/
def getMissingExtensions (installed : List String)
    (extensionIds : List String) : List String :=
  extensionIds.filter (fun extId =>
    !((installed.map lowerStr).contains (lowerStr extId)))

/-- C8: `getMissingExtensions` returns exactly the profile ids whose lowercase
form is absent from the lowercased installed set (third conjunct), as a
subsequence of the profile list — same relative order, original casing (first
conjunct), with the membership characterisation spelled out (second
conjunct). -/
theorem missing_extensions_characterisation (installed : List String)
    (extensionIds : List String) :
    (getMissingExtensions installed extensionIds).Sublist extensionIds ∧
    (∀ extId, extId ∈ getMissingExtensions installed extensionIds ↔
      (extId ∈ extensionIds ∧ lowerStr extId ∉ installed.map lowerStr)) ∧
    getMissingExtensions installed extensionIds =
      extensionIds.filter (fun extId =>
        decide (lowerStr extId ∉ installed.map lowerStr)) := by
  refine ⟨List.filter_sublist _, ?_, ?_⟩
  · intro extId
    simp [getMissingExtensions, List.mem_filter]
  · apply List.filter_congr
    intro x _
    by_cases hmem : lowerStr x ∈ installed.map lowerStr
    · simp [hmem]
    · simp [hmem]

structure MarketplaceExtensionInfo where
  deprecated : Bool
  notFound : Bool
  replacement : Option String
deriving DecidableEq

/-- Advisory result: JS `Map` keyed by lowercase id, as a lookup function. -/
def MarketMap := String → Option MarketplaceExtensionInfo

/-- `Map.set`: later writes win. -/
def mset (m : MarketMap) (k : String) (v : MarketplaceExtensionInfo) :
    MarketMap :=
  fun q => if q = k then some v else m q

/-- Initial advisory map: every candidate id mapped (lowercased) to neither
deprecated nor not-found. -/
def initialMarketMap (extensionIds : List String) : MarketMap :=
  extensionIds.foldl
    (fun m extId => mset m (lowerStr extId) ⟨false, false, none⟩)
    (fun _ => none)

structure MarketProperty where
  key : String
  value : String
deriving DecidableEq

structure MarketVersion where
  properties : List MarketProperty
deriving DecidableEq

structure MarketExtension where
  publisherName : String
  extensionName : String
  versions : List MarketVersion
deriving DecidableEq

structure MarketResult where
  extensions : List MarketExtension
deriving DecidableEq

/-- Parsed shape of a well-formed marketplace response. -/
structure MarketResponse where
  results : List MarketResult
deriving DecidableEq

/-- Outcome of the single marketplace HTTP round-trip: a network error, the
5-second timeout elapsing first, or a response whose body parses to
`some parsed` (malformed/unparseable bodies are `response none`). -/
inductive NetOutcome where
  | netError
  | timedOut
  | response (body : Option MarketResponse)
deriving DecidableEq

def marketplaceTimeoutMs : Nat := 5000

def deprecationKey : String := "Microsoft.VisualStudio.Code.Deprecation"

def alternateKey : String := "Microsoft.VisualStudio.Code.AlternateExtension"

/-- Lowercased `publisher.extensionName` id of a returned extension. -/
def extFullId (ext : MarketExtension) : String :=
  lowerStr (ext.publisherName ++ "." ++ ext.extensionName)

/-- Mark returned extensions whose latest version carries the deprecation
property, capturing the optional replacement id. -/
def processFound (exts : List MarketExtension) (m : MarketMap) : MarketMap :=
  exts.foldl (fun m ext =>
    let properties := ((ext.versions.head?).map MarketVersion.properties).getD []
    let deprecationProp := properties.find? (fun p => p.key == deprecationKey)
    let alternateProp := properties.find? (fun p => p.key == alternateKey)
    match deprecationProp with
    | some _ =>
        mset m (extFullId ext) ⟨true, false, alternateProp.map MarketProperty.value⟩
    | none => m) m

/-- Ids present in the response. -/
def foundIdSet (exts : List MarketExtension) : List String :=
  exts.map extFullId

/-- Mark candidates missing from the response as not found. -/
def markNotFound (extensionIds : List String) (found : List String)
    (m : MarketMap) : MarketMap :=
  extensionIds.foldl
    (fun m extId =>
      if found.contains (lowerStr extId) then m
      else mset m (lowerStr extId) ⟨false, true, none⟩)
    m

/-- `checkExtensionsDeprecation`: starts from the all-clear map and only
refines it on a successfully parsed response; a network error, the timeout, or
a malformed body resolve with the initial map (the check never rejects). -/
def checkExtensionsDeprecation (extensionIds : List String)
    (outcome : NetOutcome) : MarketMap :=
  let result := initialMarketMap extensionIds
  match outcome with
  | .netError => result
  | .timedOut => result
  | .response none => result
  | .response (some parsed) =>
    let exts := ((parsed.results.head?).map MarketResult.extensions).getD []
    markNotFound extensionIds (foundIdSet exts) (processFound exts result)

/-- Host-editor side effects, in issue order. -/
inductive Event where
  | notify (msg kind : String)
  | statusBar (t : ProjectType)
  | promptApply (t : ProjectType)
  | stateUpdate (key : String)
  | configUpdate (key : String)
  | applyProfileCall (profileName : String)
  | marketQuery (ids : List String)
  | warnMsg (msg : String)
  | infoMsg (msg : String)
  | execCommand (cmd arg : String)
  | getCommandsCall
  | updateSetting (key : String)
  | reloadPromptShown
deriving DecidableEq

def installExtensionCmd : String := "workbench.extensions.installExtension"

def notFoundMsg (extId : String) : String :=
  "Extension \"" ++ extId ++ "\" was not found on the marketplace and will be skipped."

def deprecatedMsg (extId : String) (replacement : Option String) : String :=
  match replacement with
  | some r =>
      "Extension \"" ++ extId ++ "\" is deprecated. Consider using \"" ++ r ++ "\" instead."
  | none => "Extension \"" ++ extId ++ "\" is deprecated and will be skipped."

/-- Classification of one missing id by its advisory entry: a warning event
for a flagged id (the if/else-if body of the partition loop), nothing for an
installable one. -/
def classifyMissing (marketplaceInfo : MarketMap) (extId : String) :
    Option Event :=
  match marketplaceInfo (lowerStr extId) with
  | some info =>
    if info.notFound then some (Event.warnMsg (notFoundMsg extId))
    else if info.deprecated then
      some (Event.warnMsg (deprecatedMsg extId info.replacement))
    else none
  | none => none

/-- Partition loop of `installMissingExtensions`: one warning per flagged id,
the rest collected (in order) for installation. -/
def partitionMissing (marketplaceInfo : MarketMap) :
    List String → List Event × List String
  | [] => ([], [])
  | extId :: rest =>
    let r := partitionMissing marketplaceInfo rest
    match classifyMissing marketplaceInfo extId with
    | some w => (w :: r.1, r.2)
    | none => (r.1, extId :: r.2)

/-- `installMissingExtensions`: nothing happens when nothing is missing;
otherwise one batched marketplace query over the missing ids, a warning per
flagged id, and one install command per remaining id. `checkAdv` is the
advisory collaborator (`checkExtensionsDeprecation` partially applied in the
real flow). -/
def installMissingExtensions (installed : List String)
    (checkAdv : List String → MarketMap) (extensionIds : List String) :
    List Event :=
  let missing := getMissingExtensions installed extensionIds
  if missing = [] then []
  else
    let marketplaceInfo := checkAdv missing
    let pr := partitionMissing marketplaceInfo missing
    Event.marketQuery missing ::
      (pr.1 ++ pr.2.map (fun extId => Event.execCommand installExtensionCmd extId))

lemma classify_shape (m : MarketMap) (x : String) (w : Event)
    (h : classifyMissing m x = some w) : ∃ msg, w = Event.warnMsg msg := by
  rcases hmx : m (lowerStr x) with _ | ⟨dep, nf, repl⟩
  · simp [classifyMissing, hmx] at h
  · cases nf <;> cases dep <;> simp [classifyMissing, hmx] at h
    all_goals exact ⟨_, h.symm⟩

lemma classify_none (m : MarketMap) (x : String)
    (h : classifyMissing m x = none) :
    m (lowerStr x) = none ∨
      ∃ info, m (lowerStr x) = some info ∧ info.notFound = false ∧
        info.deprecated = false := by
  rcases hmx : m (lowerStr x) with _ | ⟨dep, nf, repl⟩
  · exact Or.inl rfl
  · cases nf <;> cases dep <;> simp [classifyMissing, hmx] at h
    exact Or.inr ⟨_, rfl, rfl, rfl⟩

lemma classify_flagged (m : MarketMap) (x : String)
    (info : MarketplaceExtensionInfo) (hm : m (lowerStr x) = some info)
    (hflag : info.notFound = true ∨ info.deprecated = true) :
    classifyMissing m x = some (Event.warnMsg
      (if info.notFound then notFoundMsg x
       else deprecatedMsg x info.replacement)) := by
  obtain ⟨dep, nf, repl⟩ := info
  cases nf with
  | true => cases dep <;> simp [classifyMissing, hm]
  | false =>
    cases dep with
    | true => simp [classifyMissing, hm]
    | false => simp at hflag

lemma partition_warn_shape (m : MarketMap) (l : List String) :
    ∀ ev ∈ (partitionMissing m l).1, ∃ msg, ev = Event.warnMsg msg := by
  induction l with
  | nil => simp [partitionMissing]
  | cons x rest ih =>
    intro ev hev
    rcases hc : classifyMissing m x with _ | w
    · simp only [partitionMissing, hc] at hev
      exact ih ev hev
    · simp only [partitionMissing, hc] at hev
      rcases List.mem_cons.mp hev with h | h
      · rcases classify_shape m x w hc with ⟨msg, hmsg⟩
        exact ⟨msg, h ▸ hmsg⟩
      · exact ih ev h

lemma partition_toInstall_clean (m : MarketMap) (l : List String)
    (x : String) (hx : x ∈ (partitionMissing m l).2) :
    m (lowerStr x) = none ∨
      ∃ info, m (lowerStr x) = some info ∧ info.notFound = false ∧
        info.deprecated = false := by
  induction l with
  | nil => simp [partitionMissing] at hx
  | cons y rest ih =>
    rcases hc : classifyMissing m y with _ | w
    · simp only [partitionMissing, hc] at hx
      rcases List.mem_cons.mp hx with h | h
      · exact h ▸ classify_none m y hc
      · exact ih h
    · simp only [partitionMissing, hc] at hx
      exact ih hx

lemma partition_warn_mem (m : MarketMap) (l : List String) (x : String)
    (info : MarketplaceExtensionInfo) (hx : x ∈ l)
    (hm : m (lowerStr x) = some info)
    (hflag : info.notFound = true ∨ info.deprecated = true) :
    Event.warnMsg
        (if info.notFound then notFoundMsg x
         else deprecatedMsg x info.replacement) ∈ (partitionMissing m l).1 := by
  induction l with
  | nil => simp at hx
  | cons y rest ih =>
    rcases List.mem_cons.mp hx with h | h
    · subst h
      simp only [partitionMissing, classify_flagged m x info hm hflag]
      exact List.mem_cons_self _ _
    · have hrec := ih h
      rcases hc : classifyMissing m y with _ | w
      · simp only [partitionMissing, hc]
        exact hrec
      · simp only [partitionMissing, hc]
        exact List.mem_cons_of_mem _ hrec

/-- C3: the install step never issues an install command for an id whose
advisory entry is flagged not-found or deprecated; each such missing id is
skipped with a user-visible warning instead. -/
theorem flagged_ids_never_installed (installed : List String)
    (checkAdv : List String → MarketMap) (extensionIds : List String)
    (extId : String) (info : MarketplaceExtensionInfo)
    (hmem : extId ∈ getMissingExtensions installed extensionIds)
    (hinfo : checkAdv (getMissingExtensions installed extensionIds)
        (lowerStr extId) = some info)
    (hflag : info.notFound = true ∨ info.deprecated = true) :
    Event.execCommand installExtensionCmd extId ∉
      installMissingExtensions installed checkAdv extensionIds ∧
    Event.warnMsg
        (if info.notFound then notFoundMsg extId
         else deprecatedMsg extId info.replacement) ∈
      installMissingExtensions installed checkAdv extensionIds := by
  have hne : getMissingExtensions installed extensionIds ≠ [] :=
    List.ne_nil_of_mem hmem
  simp only [installMissingExtensions, if_neg hne]
  constructor
  · intro hin
    rcases List.mem_cons.mp hin with h | h
    · exact Event.noConfusion h
    · rcases List.mem_append.mp h with h | h
      · rcases partition_warn_shape _ _ _ h with ⟨msg, hmsg⟩
        exact Event.noConfusion hmsg
      · rcases List.mem_map.mp h with ⟨y, hy, hyeq⟩
        have hxy : y = extId := by
          injection hyeq
        subst hxy
        rcases partition_toInstall_clean _ _ _ hy with hnone | ⟨i, hi, hnf, hdep⟩
        · rw [hinfo] at hnone
          exact Option.noConfusion hnone
        · rw [hinfo] at hi
          have : info = i := by
            injection hi
          subst this
          rcases hflag with h | h
          · rw [h] at hnf
            exact Bool.noConfusion hnf
          · rw [h] at hdep
            exact Bool.noConfusion hdep
  · apply List.mem_cons_of_mem
    apply List.mem_append.mpr
    exact Or.inl (partition_warn_mem _ _ _ info hmem hinfo hflag)

/-- C3 witness: a concrete flagged (deprecated) missing id gets no install
command and a user-visible warning. -/
theorem flagged_ids_never_installed_witness :
    Event.execCommand installExtensionCmd "a.b" ∉
      installMissingExtensions []
        (fun _ => fun k =>
          if k = "a.b" then
            some (MarketplaceExtensionInfo.mk true false none)
          else none)
        ["a.b"] ∧
    Event.warnMsg
        (if (MarketplaceExtensionInfo.mk true false none).notFound then
          notFoundMsg "a.b"
         else deprecatedMsg "a.b" (MarketplaceExtensionInfo.mk true false none).replacement) ∈
      installMissingExtensions []
        (fun _ => fun k =>
          if k = "a.b" then
            some (MarketplaceExtensionInfo.mk true false none)
          else none)
        ["a.b"] :=
  flagged_ids_never_installed []
    (fun _ => fun k =>
      if k = "a.b" then some (MarketplaceExtensionInfo.mk true false none)
      else none)
    ["a.b"] "a.b" (MarketplaceExtensionInfo.mk true false none)
    (by decide) (by decide) (Or.inr rfl)

lemma foldl_mset_lookup (l : List String) (m : MarketMap) (k : String) :
    (l.foldl (fun m extId => mset m (lowerStr extId) ⟨false, false, none⟩) m) k
      = if k ∈ l.map lowerStr then some ⟨false, false, none⟩ else m k := by
  induction l generalizing m with
  | nil => simp
  | cons x rest ih =>
    simp only [List.foldl_cons, List.map_cons, List.mem_cons]
    rw [ih]
    by_cases hk : k ∈ rest.map lowerStr
    · simp [hk]
    · by_cases hx : k = lowerStr x
      · simp [hk, hx, mset]
      · simp [hk, hx, mset]

lemma initialMarketMap_lookup (l : List String) (k : String) :
    initialMarketMap l k =
      if k ∈ l.map lowerStr then some ⟨false, false, none⟩ else none := by
  unfold initialMarketMap
  rw [foldl_mset_lookup]

lemma partition_all_clean (m : MarketMap) (l : List String)
    (h : ∀ x ∈ l, m (lowerStr x) = some ⟨false, false, none⟩) :
    partitionMissing m l = ([], l) := by
  induction l with
  | nil => rfl
  | cons x rest ih =>
    have hx : m (lowerStr x) = some ⟨false, false, none⟩ :=
      h x (List.mem_cons_self _ _)
    have hcx : classifyMissing m x = none := by
      simp [classifyMissing, hx]
    have hrest := ih (fun y hy => h y (List.mem_cons_of_mem _ hy))
    simp [partitionMissing, hcx, hrest]

lemma checkDeprecation_failure (extensionIds : List String) (o : NetOutcome)
    (ho : o = NetOutcome.netError ∨ o = NetOutcome.timedOut ∨
      o = NetOutcome.response none) :
    checkExtensionsDeprecation extensionIds o = initialMarketMap extensionIds := by
  rcases ho with h | h | h <;> subst h <;> rfl

/-- C4: when the marketplace query suffers a network error, a malformed
response, or the 5-second timeout elapsing first, the advisory resolves with
an all-clear map — every queried candidate is neither deprecated nor
not-found (first conjunct; the timeout constant is 5000 ms, second conjunct) —
so every missing candidate still receives its install command and no warning
is surfaced (third and fourth conjuncts): the failure never blocks
installation. -/
theorem advisory_failure_keeps_all_installable (installed : List String)
    (profileIds : List String) (qids : List String) (q : String)
    (extId : String) (o : NetOutcome)
    (ho : o = NetOutcome.netError ∨ o = NetOutcome.timedOut ∨
      o = NetOutcome.response none)
    (hq : q ∈ qids)
    (hid : extId ∈ getMissingExtensions installed profileIds) :
    checkExtensionsDeprecation qids o (lowerStr q) =
      some (MarketplaceExtensionInfo.mk false false none) ∧
    marketplaceTimeoutMs = 5000 ∧
    Event.execCommand installExtensionCmd extId ∈
      installMissingExtensions installed
        (fun ids => checkExtensionsDeprecation ids o) profileIds ∧
    (installMissingExtensions installed
        (fun ids => checkExtensionsDeprecation ids o) profileIds).countP
      (fun ev => match ev with
        | Event.warnMsg _ => true
        | _ => false) = 0 := by
  have hlookup : ∀ ids : List String, ∀ x ∈ ids,
      checkExtensionsDeprecation ids o (lowerStr x) =
        some (MarketplaceExtensionInfo.mk false false none) := by
    intro ids x hx
    rw [checkDeprecation_failure ids o ho, initialMarketMap_lookup]
    simp [List.mem_map_of_mem _ hx]
  have hne : getMissingExtensions installed profileIds ≠ [] :=
    List.ne_nil_of_mem hid
  have hclean := partition_all_clean
    (checkExtensionsDeprecation (getMissingExtensions installed profileIds) o)
    (getMissingExtensions installed profileIds)
    (hlookup (getMissingExtensions installed profileIds))
  refine ⟨hlookup qids q hq, rfl, ?_, ?_⟩
  · simp only [installMissingExtensions, if_neg hne, hclean]
    exact List.mem_cons_of_mem _
      (List.mem_append.mpr (Or.inr (List.mem_map_of_mem _ hid)))
  · simp only [installMissingExtensions, if_neg hne, hclean]
    apply List.countP_eq_zero.mpr
    intro ev hev
    rcases List.mem_cons.mp hev with h | h
    · subst h
      simp
    · simp only [List.nil_append] at h
      rcases List.mem_map.mp h with ⟨y, _, hyeq⟩
      subst hyeq
      simp

/-- C4 witness: a network error leaves the single missing candidate
installable. -/
theorem advisory_failure_keeps_all_installable_witness :
    checkExtensionsDeprecation ["a.b"] NetOutcome.netError (lowerStr "a.b") =
      some (MarketplaceExtensionInfo.mk false false none) ∧
    marketplaceTimeoutMs = 5000 ∧
    Event.execCommand installExtensionCmd "a.b" ∈
      installMissingExtensions []
        (fun ids => checkExtensionsDeprecation ids NetOutcome.netError) ["a.b"] ∧
    (installMissingExtensions []
        (fun ids => checkExtensionsDeprecation ids NetOutcome.netError)
        ["a.b"]).countP
      (fun ev => match ev with
        | Event.warnMsg _ => true
        | _ => false) = 0 :=
  advisory_failure_keeps_all_installable [] ["a.b"] ["a.b"] "a.b" "a.b"
    NetOutcome.netError (Or.inl rfl) (by decide) (by decide)

/-- Installed-extension view used by the disable filter
(`vscode.extensions.all` entries with the `packageJSON` fields consulted). -/
structure InstalledExtension where
  id : String
  extensionPath : String
  categories : List String
  contributesThemes : Nat
  contributesIconThemes : Nat
  contributesProductIconThemes : Nat
deriving DecidableEq

/-- JS `String.prototype.startsWith`. -/
def strStartsWith (s pre : String) : Bool := pre.data.isPrefixOf s.data

/-- JS `String.prototype.includes`. -/
def includesSubstr (s pat : String) : Bool :=
  (List.range (s.data.length + 1)).any (fun i => pat.data.isPrefixOf (s.data.drop i))

def vscodeExtensionsDir (home : String) : String := home ++ "/.vscode/extensions"

def managerIdFragment : String := "workspace-extension-manager"

def keepCategories : List String := ["AI", "Machine Learning", "Data Science"]

/-- Surplus filter of `disableNonProfileExtensions`: keep profile members, the
manager itself, built-ins (outside the user extension dir), theme extensions
and curated categories; everything else is a candidate for disabling. -/
def shouldDisable (home : String) (profileSet : List String)
    (ext : InstalledExtension) : Bool :=
  if profileSet.contains (lowerStr ext.id) then false
  else if includesSubstr (lowerStr ext.id) managerIdFragment then false
  else if !strStartsWith ext.extensionPath (vscodeExtensionsDir home) then false
  else if ext.contributesThemes > 0 || ext.contributesIconThemes > 0 ||
      ext.contributesProductIconThemes > 0 ||
      ext.categories.contains "Themes" then false
  else if ext.categories.any (fun c => keepCategories.contains c) then false
  else true

/-- The surplus (to-disable) list, in installed order. -/
def computeToDisable (home : String)
    (allExtensions : List InstalledExtension)
    (profileExtensions : List String) : List InstalledExtension :=
  allExtensions.filter (shouldDisable home (profileExtensions.map lowerStr))

def disableCmd1 : String := "workbench.extensions.disableExtension"

def disableCmd2 : String := "workbench.extensions.action.disableExtension"

/-- Candidate disable commands, tried in order on the probe extension. -/
def disableCandidates : List String := [disableCmd1, disableCmd2]

def noDisableCmdMsg : String :=
  "Could not disable non-profile extensions: no supported disable command was found. Please update VS Code to the latest version or disable unneeded extensions manually."

/-- Probe loop: attempt each candidate command on the probe extension until
one succeeds; every attempt is an issued command. `exec cmd extId` tells
whether the host accepts command `cmd` for extension `extId`. -/
def probeDisable (exec : String → String → Bool) (probeId : String) :
    List String → List Event × Option String
  | [] => ([], none)
  | cmd :: rest =>
    if exec cmd probeId then ([Event.execCommand cmd probeId], some cmd)
    else
      let r := probeDisable exec probeId rest
      (Event.execCommand cmd probeId :: r.1, r.2)

/-- `disableNonProfileExtensions`: compute the surplus, probe the candidate
commands on its first element, then either disable the rest with the chosen
command (individual failures are absorbed — the command is still issued) or,
if no candidate worked, surface one warning and stop. `getCommands` is never
consulted. -/
def disableNonProfileExtensions (home : String)
    (allExtensions : List InstalledExtension)
    (exec : String → String → Bool)
    (profileExtensions : List String) : List Event :=
  match computeToDisable home allExtensions profileExtensions with
  | [] => []
  | probe :: rest =>
    let pr := probeDisable exec probe.id disableCandidates
    match pr.2 with
    | none => pr.1 ++ [Event.warnMsg noDisableCmdMsg]
    | some cmd => pr.1 ++ rest.map (fun ext => Event.execCommand cmd ext.id)

/-- C5: when the first disable candidate fails on the probe extension and the
second succeeds, the issued events are exactly the two probe attempts followed
by one disable per remaining surplus extension, all with the second candidate
command, and no `getCommands`-style enumeration is ever consulted. -/
theorem second_candidate_locked_in (home : String)
    (allExtensions : List InstalledExtension)
    (exec : String → String → Bool) (profileExtensions : List String)
    (probe : InstalledExtension) (rest : List InstalledExtension)
    (hsurplus : computeToDisable home allExtensions profileExtensions
      = probe :: rest)
    (h1 : exec disableCmd1 probe.id = false)
    (h2 : exec disableCmd2 probe.id = true) :
    disableNonProfileExtensions home allExtensions exec profileExtensions =
      Event.execCommand disableCmd1 probe.id ::
      Event.execCommand disableCmd2 probe.id ::
      rest.map (fun ext => Event.execCommand disableCmd2 ext.id) ∧
    Event.getCommandsCall ∉
      disableNonProfileExtensions home allExtensions exec profileExtensions := by
  have hpr : probeDisable exec probe.id disableCandidates =
      ([Event.execCommand disableCmd1 probe.id,
        Event.execCommand disableCmd2 probe.id], some disableCmd2) := by
    simp [probeDisable, disableCandidates, h1, h2]
  have hev : disableNonProfileExtensions home allExtensions exec
      profileExtensions =
      Event.execCommand disableCmd1 probe.id ::
      Event.execCommand disableCmd2 probe.id ::
      rest.map (fun ext => Event.execCommand disableCmd2 ext.id) := by
    simp [disableNonProfileExtensions, hsurplus, hpr]
  refine ⟨hev, ?_⟩
  rw [hev]
  intro hmem
  rcases List.mem_cons.mp hmem with h | h
  · exact Event.noConfusion h
  · rcases List.mem_cons.mp h with h | h
    · exact Event.noConfusion h
    · rcases List.mem_map.mp h with ⟨y, _, hyeq⟩
      exact Event.noConfusion hyeq

/-- Helper: returns true exactly on warning events. -/
def isWarnEvent : Event → Bool
  | Event.warnMsg _ => true
  | _ => false

/-- C6: when every disable candidate fails on the probe extension, the issued
events are exactly the two probe attempts followed by a single warning —
exactly one warning overall, no disable command for any further extension and
no per-extension retry. -/
theorem all_candidates_fail_one_warning (home : String)
    (allExtensions : List InstalledExtension)
    (exec : String → String → Bool) (profileExtensions : List String)
    (probe : InstalledExtension) (rest : List InstalledExtension)
    (hsurplus : computeToDisable home allExtensions profileExtensions
      = probe :: rest)
    (h1 : exec disableCmd1 probe.id = false)
    (h2 : exec disableCmd2 probe.id = false) :
    disableNonProfileExtensions home allExtensions exec profileExtensions =
      [Event.execCommand disableCmd1 probe.id,
       Event.execCommand disableCmd2 probe.id,
       Event.warnMsg noDisableCmdMsg] ∧
    (disableNonProfileExtensions home allExtensions exec
        profileExtensions).countP isWarnEvent = 1 := by
  have hpr : probeDisable exec probe.id disableCandidates =
      ([Event.execCommand disableCmd1 probe.id,
        Event.execCommand disableCmd2 probe.id], none) := by
    simp [probeDisable, disableCandidates, h1, h2]
  have hev : disableNonProfileExtensions home allExtensions exec
      profileExtensions =
      [Event.execCommand disableCmd1 probe.id,
       Event.execCommand disableCmd2 probe.id,
       Event.warnMsg noDisableCmdMsg] := by
    simp [disableNonProfileExtensions, hsurplus, hpr]
  refine ⟨hev, ?_⟩
  rw [hev]
  simp [List.countP_cons, isWarnEvent]

/-- C5 witness: a concrete batch of two surplus extensions where the first
candidate fails on the probe and the second succeeds. -/
theorem second_candidate_locked_in_witness :
    disableNonProfileExtensions "h"
        [InstalledExtension.mk "a.b" "h/.vscode/extensions/a.b" [] 0 0 0,
         InstalledExtension.mk "c.d" "h/.vscode/extensions/c.d" [] 0 0 0]
        (fun cmd _ => cmd == disableCmd2) [] =
      Event.execCommand disableCmd1 "a.b" ::
      Event.execCommand disableCmd2 "a.b" ::
      [InstalledExtension.mk "c.d" "h/.vscode/extensions/c.d" [] 0 0 0].map
        (fun ext => Event.execCommand disableCmd2 ext.id) ∧
    Event.getCommandsCall ∉
      disableNonProfileExtensions "h"
        [InstalledExtension.mk "a.b" "h/.vscode/extensions/a.b" [] 0 0 0,
         InstalledExtension.mk "c.d" "h/.vscode/extensions/c.d" [] 0 0 0]
        (fun cmd _ => cmd == disableCmd2) [] :=
  second_candidate_locked_in "h"
    [InstalledExtension.mk "a.b" "h/.vscode/extensions/a.b" [] 0 0 0,
     InstalledExtension.mk "c.d" "h/.vscode/extensions/c.d" [] 0 0 0]
    (fun cmd _ => cmd == disableCmd2) []
    (InstalledExtension.mk "a.b" "h/.vscode/extensions/a.b" [] 0 0 0)
    [InstalledExtension.mk "c.d" "h/.vscode/extensions/c.d" [] 0 0 0]
    (by decide) (by decide) (by decide)

/-- C6 witness: a concrete batch of two surplus extensions where every
candidate fails on the probe. -/
theorem all_candidates_fail_one_warning_witness :
    disableNonProfileExtensions "h"
        [InstalledExtension.mk "a.b" "h/.vscode/extensions/a.b" [] 0 0 0,
         InstalledExtension.mk "c.d" "h/.vscode/extensions/c.d" [] 0 0 0]
        (fun _ _ => false) [] =
      [Event.execCommand disableCmd1 "a.b",
       Event.execCommand disableCmd2 "a.b",
       Event.warnMsg noDisableCmdMsg] ∧
    (disableNonProfileExtensions "h"
        [InstalledExtension.mk "a.b" "h/.vscode/extensions/a.b" [] 0 0 0,
         InstalledExtension.mk "c.d" "h/.vscode/extensions/c.d" [] 0 0 0]
        (fun _ _ => false) []).countP isWarnEvent = 1 :=
  all_candidates_fail_one_warning "h"
    [InstalledExtension.mk "a.b" "h/.vscode/extensions/a.b" [] 0 0 0,
     InstalledExtension.mk "c.d" "h/.vscode/extensions/c.d" [] 0 0 0]
    (fun _ _ => false) []
    (InstalledExtension.mk "a.b" "h/.vscode/extensions/a.b" [] 0 0 0)
    [InstalledExtension.mk "c.d" "h/.vscode/extensions/c.d" [] 0 0 0]
    (by decide) (by decide) (by decide)

/-- Profile record loaded from static configuration data. -/
structure ProfileConfig where
  name : String
  extensions : List String
  settings : Option (List (String × String))
deriving DecidableEq

/-- Per-key workspace configuration updates; a key's failure is absorbed, the
update is still issued. -/
def applySettings : Option (List (String × String)) → List Event
  | none => []
  | some kvs => kvs.map (fun kv => Event.updateSetting kv.1)

inductive PromptChoice where
  | applyIt
  | notNow
  | neverForWorkspace
deriving DecidableEq

/-- Host environment of one detection/apply pass: workspace, filesystem,
configuration, installed extensions, profile store, and the collaborator
responses (prompt choice, network outcome, command acceptance, reload
choice). -/
structure FlowEnv where
  workspaceRoot : Option FsPath
  fs : FsPath → Bool
  excludedConfig : List String
  allExtensions : List InstalledExtension
  profileConfigs : ProjectType → Option ProfileConfig
  promptChoice : PromptChoice
  disableOther : Bool
  netOutcome : NetOutcome
  exec : String → String → Bool
  home : String
  reloadChoice : Bool

def appliedMsg (name : String) : String :=
  "Profile \"" ++ name ++ "\" applied. Non-profile extensions disabled globally. Reload to activate changes."

/-- `applyProfile`: install missing extensions (with the marketplace advisory
collaborator), optionally disable non-profile extensions, apply settings, and
report success. In this pure model every collaborator failure is a value (a
failing `exec`, a failed `NetOutcome`), mirroring the source's
catch-and-continue handling, so the catch-all failure branch is unreachable
and the result is `true`. -/
def applyProfile (env : FlowEnv) (cfg : ProfileConfig) : List Event × Bool :=
  let installed := env.allExtensions.map InstalledExtension.id
  let installEvs := installMissingExtensions installed
    (fun ids => checkExtensionsDeprecation ids env.netOutcome) cfg.extensions
  let disableEvs :=
    if env.disableOther then
      disableNonProfileExtensions env.home env.allExtensions env.exec
        cfg.extensions
    else []
  let settingsEvs := applySettings cfg.settings
  (Event.applyProfileCall cfg.name ::
    (installEvs ++ disableEvs ++ settingsEvs ++
      [Event.infoMsg (appliedMsg cfg.name)]), true)

lemma probeDisable_event_shape (exec : String → String → Bool)
    (probeId : String) (cands : List String) :
    (∀ ev ∈ (probeDisable exec probeId cands).1,
      ∃ cmd, ev = Event.execCommand cmd probeId ∧ cmd ∈ cands) ∧
    (∀ c, (probeDisable exec probeId cands).2 = some c → c ∈ cands) := by
  induction cands with
  | nil => simp [probeDisable]
  | cons cmd rest ih =>
    by_cases hx : exec cmd probeId
    · constructor
      · intro ev hev
        simp only [probeDisable, if_pos hx, List.mem_singleton] at hev
        exact ⟨cmd, hev, List.mem_cons_self _ _⟩
      · intro c hc
        simp only [probeDisable, if_pos hx, Option.some.injEq] at hc
        exact hc ▸ List.mem_cons_self _ _
    · constructor
      · intro ev hev
        simp only [probeDisable, if_neg hx] at hev
        rcases List.mem_cons.mp hev with h | h
        · exact ⟨cmd, h, List.mem_cons_self _ _⟩
        · rcases ih.1 ev h with ⟨c, hc, hcm⟩
          exact ⟨c, hc, List.mem_cons_of_mem _ hcm⟩
      · intro c hc
        simp only [probeDisable, if_neg hx] at hc
        exact List.mem_cons_of_mem _ (ih.2 c hc)

lemma disable_event_shape (home : String)
    (allExtensions : List InstalledExtension)
    (exec : String → String → Bool) (profileExtensions : List String) :
    ∀ ev ∈ disableNonProfileExtensions home allExtensions exec
        profileExtensions,
      (∃ cmd arg, ev = Event.execCommand cmd arg ∧ cmd ∈ disableCandidates) ∨
      ev = Event.warnMsg noDisableCmdMsg := by
  rcases hsurplus : computeToDisable home allExtensions profileExtensions with
    _ | ⟨probe, rest⟩
  · intro ev hev
    simp [disableNonProfileExtensions, hsurplus] at hev
  · rcases hch : (probeDisable exec probe.id disableCandidates).2 with _ | cmd
    · intro ev hev
      simp only [disableNonProfileExtensions, hsurplus, hch] at hev
      rcases List.mem_append.mp hev with h | h
      · rcases (probeDisable_event_shape exec probe.id disableCandidates).1
          ev h with ⟨c, hc, hcm⟩
        exact Or.inl ⟨c, probe.id, hc, hcm⟩
      · exact Or.inr (List.mem_singleton.mp h)
    · intro ev hev
      simp only [disableNonProfileExtensions, hsurplus, hch] at hev
      rcases List.mem_append.mp hev with h | h
      · rcases (probeDisable_event_shape exec probe.id disableCandidates).1
          ev h with ⟨c, hc, hcm⟩
        exact Or.inl ⟨c, probe.id, hc, hcm⟩
      · rcases List.mem_map.mp h with ⟨y, _, hyeq⟩
        exact Or.inl ⟨cmd, y.id, hyeq.symm,
          (probeDisable_event_shape exec probe.id disableCandidates).2 cmd hch⟩

/-- Helper: returns true exactly on install commands. -/
def isInstallCmdEvent : Event → Bool
  | Event.execCommand cmd _ => cmd == installExtensionCmd
  | _ => false

/-- Helper: returns true exactly on marketplace queries. -/
def isMarketQueryEvent : Event → Bool
  | Event.marketQuery _ => true
  | _ => false

lemma applySettings_shape (s : Option (List (String × String))) :
    ∀ ev ∈ applySettings s, ∃ k, ev = Event.updateSetting k := by
  intro ev hev
  cases s with
  | none => simp [applySettings] at hev
  | some kvs =>
    simp only [applySettings] at hev
    rcases List.mem_map.mp hev with ⟨kv, _, hkv⟩
    exact ⟨kv.1, hkv.symm⟩

/-- C9: applying a profile all of whose extension ids are already installed
(case-insensitively) reports success, issues zero install commands and zero
marketplace advisory queries. -/
theorem all_installed_apply_succeeds (env : FlowEnv) (cfg : ProfileConfig)
    (hall : ∀ extId ∈ cfg.extensions,
      lowerStr extId ∈ (env.allExtensions.map InstalledExtension.id).map lowerStr) :
    (applyProfile env cfg).2 = true ∧
    (applyProfile env cfg).1.countP isInstallCmdEvent = 0 ∧
    (applyProfile env cfg).1.countP isMarketQueryEvent = 0 := by
  have hmiss : getMissingExtensions
      (env.allExtensions.map InstalledExtension.id) cfg.extensions = [] := by
    apply List.filter_eq_nil_iff.mpr
    intro x hx
    simpa using hall x hx
  have hinst : installMissingExtensions
      (env.allExtensions.map InstalledExtension.id)
      (fun ids => checkExtensionsDeprecation ids env.netOutcome)
      cfg.extensions = [] := by
    simp [installMissingExtensions, hmiss]
  have hshape : ∀ ev ∈ (applyProfile env cfg).1,
      isInstallCmdEvent ev = false ∧ isMarketQueryEvent ev = false := by
    intro ev hev
    simp only [applyProfile, hinst, List.nil_append] at hev
    rcases List.mem_cons.mp hev with h | h
    · subst h
      exact ⟨rfl, rfl⟩
    · rcases List.mem_append.mp h with h | h
      · rcases List.mem_append.mp h with h | h
        · by_cases hd : env.disableOther
          · rw [if_pos hd] at h
            rcases disable_event_shape env.home env.allExtensions env.exec
              cfg.extensions ev h with ⟨cmd, arg, hc, hcm⟩ | hc
            · subst hc
              refine ⟨?_, rfl⟩
              have hcc : cmd = disableCmd1 ∨ cmd = disableCmd2 := by
                simpa [disableCandidates] using hcm
              rcases hcc with h1 | h1 <;> subst h1 <;>
                simp only [isInstallCmdEvent] <;> decide
            · subst hc
              exact ⟨rfl, rfl⟩
          · rw [if_neg hd] at h
            simp at h
        · rcases applySettings_shape cfg.settings ev h with ⟨k, hk⟩
          subst hk
          exact ⟨rfl, rfl⟩
      · rcases List.mem_singleton.mp h with h1
        subst h1
        exact ⟨rfl, rfl⟩
  refine ⟨rfl, ?_, ?_⟩
  · exact List.countP_eq_zero.mpr (fun ev hev => by simp [(hshape ev hev).1])
  · exact List.countP_eq_zero.mpr (fun ev hev => by simp [(hshape ev hev).2])

/-- Environment with one installed extension `A.B` used by the C9 witness. -/
def envAllInstalled : FlowEnv where
  workspaceRoot := none
  fs := fun _ => false
  excludedConfig := []
  allExtensions := [InstalledExtension.mk "A.B" "h/.vscode/extensions/a.b" [] 0 0 0]
  profileConfigs := fun _ => none
  promptChoice := PromptChoice.notNow
  disableOther := true
  netOutcome := NetOutcome.netError
  exec := fun _ _ => false
  home := "h"
  reloadChoice := false

/-- C9 witness: a profile requiring only the already-installed `a.b`
(differently cased) applies successfully with no install and no query. -/
theorem all_installed_apply_succeeds_witness :
    (applyProfile envAllInstalled (ProfileConfig.mk "Node" ["a.b"] none)).2 = true ∧
    (applyProfile envAllInstalled
        (ProfileConfig.mk "Node" ["a.b"] none)).1.countP isInstallCmdEvent = 0 ∧
    (applyProfile envAllInstalled
        (ProfileConfig.mk "Node" ["a.b"] none)).1.countP isMarketQueryEvent = 0 :=
  all_installed_apply_succeeds envAllInstalled
    (ProfileConfig.mk "Node" ["a.b"] none) (by decide)

def reloadWindowCmd : String := "workbench.action.reloadWindow"

/-- `promptForReload`: show the reload confirmation; reload on acceptance
(the reload command takes no argument, modelled with an empty string). -/
def promptForReload (reloadChoice : Bool) : List Event :=
  Event.reloadPromptShown ::
    (if reloadChoice then [Event.execCommand reloadWindowCmd ""] else [])

/-- Per-workspace persisted session state. -/
structure SessionState where
  appliedProfile : Option String
  hasPrompted : Bool
deriving DecidableEq

/-- `detectAndApplyProfile` from the extension entry point: detect the first
workspace folder's type, update the status bar, bail out on `unknown`,
suppress the prompt when the stored applied profile matches the fresh type (or
the user already declined) and the pass is not forced, otherwise look up the
profile, record `hasPrompted`, prompt, and on acceptance apply the profile,
record it and offer a reload. -/
def detectAndApplyProfile (env : FlowEnv) (st : SessionState)
    (forcePrompt : Bool) : List Event × SessionState :=
  match env.workspaceRoot with
  | none => ([Event.notify "No workspace folder open" "warning"], st)
  | some root =>
    let projectType := detectProjectType root env.fs env.excludedConfig
    let ev0 := [Event.statusBar projectType]
    if projectType = ProjectType.unknown then
      (ev0 ++ [Event.notify "Could not detect project type" "info"], st)
    else if forcePrompt = false ∧ st.appliedProfile = some (typeName projectType) then
      (ev0, st)
    else if forcePrompt = false ∧ st.hasPrompted = true ∧ st.appliedProfile = none then
      (ev0, st)
    else
      match env.profileConfigs projectType with
      | none =>
        (ev0 ++ [Event.notify ("No profile available for " ++ typeName projectType)
          "warning"], st)
      | some profileCfg =>
        let missing := getMissingExtensions
          (env.allExtensions.map InstalledExtension.id) profileCfg.extensions
        if forcePrompt = false ∧ missing = [] ∧
            st.appliedProfile = some (typeName projectType) then
          (ev0, st)
        else
          let st1 : SessionState := { st with hasPrompted := true }
          let ev1 := ev0 ++ [Event.stateUpdate "hasPrompted",
            Event.promptApply projectType]
          match env.promptChoice with
          | PromptChoice.applyIt =>
            let ar := applyProfile env profileCfg
            if ar.2 then
              (ev1 ++ ar.1 ++ [Event.stateUpdate "appliedProfile"] ++
                promptForReload env.reloadChoice,
               { st1 with appliedProfile := some (typeName projectType) })
            else (ev1 ++ ar.1, st1)
          | PromptChoice.notNow => (ev1, st1)
          | PromptChoice.neverForWorkspace =>
            (ev1 ++ [Event.configUpdate "autoDetect"], st1)

/-- Helper: returns true exactly on user confirmation prompts. -/
def isPromptEvent : Event → Bool
  | Event.promptApply _ => true
  | _ => false

/-- Helper: returns true exactly on apply-profile invocations. -/
def isApplyCallEvent : Event → Bool
  | Event.applyProfileCall _ => true
  | _ => false

/-- C7: re-running detection for a workspace whose stored applied profile
equals the freshly detected type, without forcing, issues zero user prompts,
zero install commands and zero apply-profile calls. -/
theorem already_applied_pass_is_silent (env : FlowEnv) (st : SessionState)
    (root : FsPath) (hroot : env.workspaceRoot = some root)
    (happ : st.appliedProfile =
      some (typeName (detectProjectType root env.fs env.excludedConfig))) :
    (detectAndApplyProfile env st false).1.countP isPromptEvent = 0 ∧
    (detectAndApplyProfile env st false).1.countP isInstallCmdEvent = 0 ∧
    (detectAndApplyProfile env st false).1.countP isApplyCallEvent = 0 := by
  have hshape : ∀ ev ∈ (detectAndApplyProfile env st false).1,
      isPromptEvent ev = false ∧ isInstallCmdEvent ev = false ∧
        isApplyCallEvent ev = false := by
    intro ev hev
    simp only [detectAndApplyProfile, hroot] at hev
    by_cases ht : detectProjectType root env.fs env.excludedConfig =
        ProjectType.unknown
    · rw [if_pos ht] at hev
      rcases List.mem_append.mp hev with h | h
      · rcases List.mem_singleton.mp h with h1
        subst h1
        exact ⟨rfl, rfl, rfl⟩
      · rcases List.mem_singleton.mp h with h1
        subst h1
        exact ⟨rfl, rfl, rfl⟩
    · rw [if_neg ht, if_pos ⟨trivial, happ⟩] at hev
      rcases List.mem_singleton.mp hev with h1
      subst h1
      exact ⟨rfl, rfl, rfl⟩
  refine ⟨?_, ?_, ?_⟩
  · exact List.countP_eq_zero.mpr (fun ev hev => by simp [(hshape ev hev).1])
  · exact List.countP_eq_zero.mpr (fun ev hev => by simp [(hshape ev hev).2.1])
  · exact List.countP_eq_zero.mpr (fun ev hev => by simp [(hshape ev hev).2.2])

/-- Environment with an empty workspace used by the C7 witness (detection
yields `unknown`, which the state below stores as applied). -/
def envAlreadyApplied : FlowEnv where
  workspaceRoot := some ["ws"]
  fs := fun _ => false
  excludedConfig := []
  allExtensions := []
  profileConfigs := fun _ => none
  promptChoice := PromptChoice.applyIt
  disableOther := true
  netOutcome := NetOutcome.netError
  exec := fun _ _ => false
  home := "h"
  reloadChoice := false

/-- C7 witness: with the stored applied profile equal to the freshly detected
type and no forcing, the pass issues no prompt, no install, no apply call. -/
theorem already_applied_pass_is_silent_witness :
    (detectAndApplyProfile envAlreadyApplied
        (SessionState.mk (some "unknown") true) false).1.countP isPromptEvent = 0 ∧
    (detectAndApplyProfile envAlreadyApplied
        (SessionState.mk (some "unknown") true) false).1.countP isInstallCmdEvent = 0 ∧
    (detectAndApplyProfile envAlreadyApplied
        (SessionState.mk (some "unknown") true) false).1.countP isApplyCallEvent = 0 :=
  already_applied_pass_is_silent envAlreadyApplied
    (SessionState.mk (some "unknown") true) ["ws"] rfl (by decide)
